import Mathlib

/-!
Verification of the Objective-C type-encoding matcher (`objc2_encode/src/parse.rs`)
and the concrete block builder (`crates/block2/src/concrete_block.rs`).

Strings (`&str`) are embedded as `List Char`; the `Encoding` enum is embedded as a
mutual inductive (the Rust slices `&[Encoding]` of struct fields / union members
become the mutual list type `EncList`).
-/

namespace ObjC2

mutual

/-- The `Encoding` enum from `objc2_encode` (variants as matched in `parse.rs`). -/
inductive Encoding where
  | Char
  | Short
  | Int
  | Long
  | LongLong
  | UChar
  | UShort
  | UInt
  | ULong
  | ULongLong
  | Float
  | Double
  | Bool
  | Void
  | String
  | Object
  | Block
  | Class
  | Sel
  | Unknown
  | BitField (b : Nat)
  | Pointer (t : Encoding)
  | Array (len : Nat) (item : Encoding)
  | Struct (name : List Char) (fields : EncList)
  | Union (name : List Char) (members : EncList)
  deriving DecidableEq

/-- Embedding of the field/member slices `&[Encoding]`. -/
inductive EncList where
  | nil
  | cons (head : Encoding) (tail : EncList)
  deriving DecidableEq

end

/-- The `QUALIFIERS` constant from `parse.rs`. -/
def QUALIFIERS : List Char := ['r', 'n', 'N', 'o', 'O', 'R', 'V']

/-- Embedding of `str::strip_prefix` with a string pattern, on the `List Char` embedding:
remove `p` from the front of `s` if it is there. -/
def stripPre : List Char → List Char → Option (List Char)
  | [], s => some s
  | _ :: _, [] => none
  | p :: ps, c :: cs => if p = c then stripPre ps cs else none

/-- Embedding of `str::strip_prefix` with a single-character pattern. -/
def stripCharPre (p : Char) : List Char → Option (List Char)
  | [] => none
  | c :: cs => if c = p then some cs else none

/-- Embedding of `s.find(|c: char| !c.is_digit(10))` followed by `split_at` (with the
`None ⇒ (s, "")` case): split `s` at its first non-digit character. -/
def splitAtNonDigit : List Char → List Char × List Char
  | [] => ([], [])
  | c :: cs =>
    if c.isDigit then
      let p := splitAtNonDigit cs
      (c :: p.1, p.2)
    else ([], c :: cs)

/-- The numeric value of an ASCII digit character. -/
def digitVal (c : Char) : Nat := c.toNat - 48

/-- Decimal value of a digit string, most significant digit first. -/
def charsVal (l : List Char) : Nat :=
  l.foldl (fun a c => a * 10 + digitVal c) 0

/-- The value of `usize::MAX` on the 64-bit targets this crate supports. -/
def USIZE_MAX : Nat := 2 ^ 64 - 1

/-- Embedding of `str::parse::<usize>()` on the `List Char` embedding: succeeds exactly on a
non-empty all-digit string whose decimal value is representable in `usize`
(overflow makes the parse fail), returning that value. -/
def parseNat? (l : List Char) : Option Nat :=
  if l ≠ [] ∧ l.all Char.isDigit ∧ charsVal l ≤ USIZE_MAX then some (charsVal l) else none

/-- The function `chomp_int` from `parse.rs`: chomp the maximal leading digit run and parse it. -/
def chomp_int (s : List Char) : Option (Nat × List Char) :=
  let p := splitAtNonDigit s
  (parseNat? p.1).map fun n => (n, p.2)

/-- The function `rm_int_prefix` from `parse.rs`. -/
def rm_int_prefix (s : List Char) (other : Nat) : Option (List Char) :=
  (chomp_int s).bind fun p => if other = p.1 then some p.2 else none

mutual

/-- The function `rm_enc_prefix` from `parse.rs` (the `for field in fields` loop over the
struct fields / union members becomes `rm_enc_list`). -/
def rm_enc_prefix : List Char → Encoding → Option (List Char)
  | s, .Char => stripPre ['c'] s
  | s, .Short => stripPre ['s'] s
  | s, .Int => stripPre ['i'] s
  | s, .Long => stripPre ['l'] s
  | s, .LongLong => stripPre ['q'] s
  | s, .UChar => stripPre ['C'] s
  | s, .UShort => stripPre ['S'] s
  | s, .UInt => stripPre ['I'] s
  | s, .ULong => stripPre ['L'] s
  | s, .ULongLong => stripPre ['Q'] s
  | s, .Float => stripPre ['f'] s
  | s, .Double => stripPre ['d'] s
  | s, .Bool => stripPre ['B'] s
  | s, .Void => stripPre ['v'] s
  | s, .String => stripPre ['*'] s
  | s, .Object => stripPre ['@'] s
  | s, .Block => stripPre ['@', '?'] s
  | s, .Class => stripPre ['#'] s
  | s, .Sel => stripPre [':'] s
  | s, .Unknown => stripPre ['?'] s
  | s, .BitField b =>
    (stripCharPre 'b' s).bind fun s => rm_int_prefix s b
  | s, .Pointer t =>
    (stripCharPre '^' s).bind fun s => rm_enc_prefix s t
  | s, .Array len item =>
    (stripCharPre '[' s).bind fun s =>
      ( rm_int_prefix s len).bind fun s =>
        ( rm_enc_prefix s item).bind fun s =>
          stripCharPre ']' s
  | s, .Struct name fields =>
    (stripCharPre '{' s).bind fun s =>
      (stripPre name s).bind fun s =>
        (stripCharPre '=' s).bind fun s =>
          (rm_enc_list s fields).bind fun s =>
            stripCharPre '}' s
  | s, .Union name members =>
    (stripCharPre '(' s).bind fun s =>
      (stripPre name s).bind fun s =>
        (stripCharPre '=' s).bind fun s =>
          (rm_enc_list s members).bind fun s =>
            stripCharPre ')' s

/-- The sequential consumption of a struct's fields / a union's members. -/
def rm_enc_list : List Char → EncList → Option (List Char)
  | s, .nil => some s
  | s, .cons e es => ( rm_enc_prefix s e).bind fun s => rm_enc_list s es

end

/-- The function `eq_enc` from `parse.rs`: strip leading qualifiers, then the match succeeds
iff the encoding's prefix can be removed and nothing remains. -/
def eq_enc (s : List Char) (enc : Encoding) : Bool :=
  let s := s.dropWhile (fun c => c ∈ QUALIFIERS)
  match rm_enc_prefix s enc with
  | some rest => rest.isEmpty
  | none => false

/-- Does the string start with an ASCII decimal digit? -/
def startsWithDigit : List Char → Bool
  | [] => false
  | c :: _ => c.isDigit

/-- The characters that can begin the structural code of an encoding in
`rm_enc_prefix`: the scalar codes, `@` (also beginning `@?`), and the leading
characters of bitfield, pointer, array, struct and union codes. -/
def structFirstChars : List Char :=
  ['c', 's', 'i', 'l', 'q', 'C', 'S', 'I', 'L', 'Q', 'f', 'd', 'B', 'v', '*', '@',
   '#', ':', '?', 'b', '^', '[', '{', '(']

/-- Decimal digit characters of `n`, most significant first (how `Display` prints
an unsigned integer: `0` prints as `"0"`, otherwise no leading zeros). -/
def natDigits (n : Nat) : List Char :=
  if n = 0 then ['0'] else ((Nat.digits 10 n).map Nat.digitChar).reverse

mutual

/-- Modelled from the spec: the canonical encoding string (the `Display`
implementation for `Encoding` is not among the sources), following the
bit-exact grammar of spec §6: one-letter scalar codes, `@?` for Block,
`b<N>` bitfield, `^<E>` pointer, `[<N><E>]` array, `{<name>=<fields>}` struct,
`(<name>=<members>)` union. -/
def canonical_string : Encoding → List Char
  | .Char => ['c']
  | .Short => ['s']
  | .Int => ['i']
  | .Long => ['l']
  | .LongLong => ['q']
  | .UChar => ['C']
  | .UShort => ['S']
  | .UInt => ['I']
  | .ULong => ['L']
  | .ULongLong => ['Q']
  | .Float => ['f']
  | .Double => ['d']
  | .Bool => ['B']
  | .Void => ['v']
  | .String => ['*']
  | .Object => ['@']
  | .Block => ['@', '?']
  | .Class => ['#']
  | .Sel => [':']
  | .Unknown => ['?']
  | .BitField b => 'b' :: natDigits b
  | .Pointer t => '^' :: canonical_string t
  | .Array len item => '[' :: (natDigits len ++ (canonical_string item ++ [']']))
  | .Struct name fields => '{' :: (name ++ '=' :: (canonicalList fields ++ ['}']))
  | .Union name members => '(' :: (name ++ '=' :: (canonicalList members ++ [')']))

/-- Canonical strings of a field/member sequence, concatenated in order. -/
def canonicalList : EncList → List Char
  | .nil => []
  | .cons e es => canonical_string e ++ canonicalList es

end

/-! ## The concrete block builder (`block2/src/concrete_block.rs`) -/

/-- Symbolic function pointers: the arity-specific invoke trampoline (erased to
an untyped function pointer), and the two context helpers from
`concrete_block.rs`. -/
inductive FnPtr where
  | invokeFn (id : Nat)
  | ctxCopy
  | ctxDispose
  deriving DecidableEq

/-- Modelled from the spec: `BlockFlags` (declared in `block2::abi`, not among
the sources) — a bit-flags field with a "has copy/dispose helpers" bit. -/
structure BlockFlags where
  has_copy_dispose : Bool
  deriving DecidableEq

/-- The `BLOCK_HAS_COPY_DISPOSE` flag value. -/
def BlockFlags.BLOCK_HAS_COPY_DISPOSE : BlockFlags := ⟨true⟩

/-- The empty flags value. -/
def BlockFlags.EMPTY : BlockFlags := ⟨false⟩

/-- Modelled from the spec: the runtime class identity stored in the header;
`_NSConcreteStackBlock` (declared in `block2::ffi`, not among the sources) is
the fixed "stack-allocated closure object" class. -/
inductive Isa where
  | NSConcreteStackBlock
  | other (id : Nat)
  deriving DecidableEq

/-- Modelled from the spec: `BlockDescriptorCopyDispose` (declared in
`block2::abi`, not among the sources): reserved word, object size, optional
copy/dispose helper pointers. -/
structure BlockDescriptor where
  reserved : Nat
  size : Nat
  copy : Option FnPtr
  dispose : Option FnPtr
  deriving DecidableEq

/-- Modelled from the spec: `BlockHeader` (declared in `block2::abi`, not among
the sources): isa pointer, flags, reserved, optional invoke pointer, and the
descriptor. -/
structure BlockHeader where
  isa : Isa
  flags : BlockFlags
  reserved : Nat
  invoke : Option FnPtr
  descriptor : BlockDescriptor
  deriving DecidableEq

/-- The struct `ConcreteBlock<A, R, F>`: the header followed by the stored closure (the
`PhantomData` marker is zero-sized and omitted). -/
structure ConcreteBlock (F : Type) where
  header : BlockHeader
  closure : F

/-- The constant `ConcreteBlock::FLAGS`: `BLOCK_HAS_COPY_DISPOSE` exactly when
`mem::needs_drop::<Self>()`; the compile-time `needs_drop` fact is an explicit
argument. -/
def ConcreteBlock.FLAGS (needsDrop : Bool) : BlockFlags :=
  if needsDrop then .BLOCK_HAS_COPY_DISPOSE else .EMPTY

/-- The constant `ConcreteBlock::DESCRIPTOR`: reserved 0, the byte size of the whole object
(`mem::size_of::<Self>()`, an explicit argument), and the two context helpers
present exactly when `needs_drop`. -/
def ConcreteBlock.DESCRIPTOR (needsDrop : Bool) (size : Nat) : BlockDescriptor where
  reserved := 0
  size := size
  copy := if needsDrop then some .ctxCopy else none
  dispose := if needsDrop then some .ctxDispose else none

/-- The builder `ConcreteBlock::with_invoke`: eagerly builds the header around the given
invoke pointer and closure. -/
def ConcreteBlock.with_invoke {F : Type} (needsDrop : Bool) (size : Nat)
    (invoke : FnPtr) (closure : F) : ConcreteBlock F where
  header :=
    { isa := .NSConcreteStackBlock
      flags := ConcreteBlock.FLAGS needsDrop
      reserved := 0
      invoke := some invoke
      descriptor := ConcreteBlock.DESCRIPTOR needsDrop size }
  closure := closure

/-! The per-arity invoke trampolines generated by `concrete_block_impl!`:
for each arity, `invoke(block, args...) = (block.closure)(args...)`.
The closure type parameter `X: Fn(T1, ..., Tn) -> R` is embedded as the Lean
function type `T1 → ⋯ → Tn → R`. -/

/-- Arity-0 trampoline from `concrete_block_impl!()`. -/
def invoke0 {R : Type} (block : ConcreteBlock R) : R :=
  block.closure

/-- Arity-1 trampoline from `concrete_block_impl!(a: A)`. -/
def invoke1 {A R : Type} (block : ConcreteBlock (A → R)) (a : A) : R :=
  block.closure a

/-- Arity-2 trampoline. -/
def invoke2 {A B R : Type} (block : ConcreteBlock (A → B → R)) (a : A) (b : B) : R :=
  block.closure a b

/-- Arity-3 trampoline. -/
def invoke3 {A B C R : Type} (block : ConcreteBlock (A → B → C → R)) (a : A) (b : B) (c : C) : R :=
  block.closure a b c

/-- Arity-4 trampoline. -/
def invoke4 {A B C D R : Type} (block : ConcreteBlock (A → B → C → D → R))
    (a : A) (b : B) (c : C) (d : D) : R :=
  block.closure a b c d

/-- Arity-5 trampoline. -/
def invoke5 {A B C D E R : Type} (block : ConcreteBlock (A → B → C → D → E → R))
    (a : A) (b : B) (c : C) (d : D) (e : E) : R :=
  block.closure a b c d e

/-- Arity-6 trampoline. -/
def invoke6 {A B C D E F R : Type} (block : ConcreteBlock (A → B → C → D → E → F → R))
    (a : A) (b : B) (c : C) (d : D) (e : E) (f : F) : R :=
  block.closure a b c d e f

/-- Arity-7 trampoline. -/
def invoke7 {A B C D E F G R : Type} (block : ConcreteBlock (A → B → C → D → E → F → G → R))
    (a : A) (b : B) (c : C) (d : D) (e : E) (f : F) (g : G) : R :=
  block.closure a b c d e f g

/-- Arity-8 trampoline. -/
def invoke8 {A B C D E F G H R : Type} (block : ConcreteBlock (A → B → C → D → E → F → G → H → R))
    (a : A) (b : B) (c : C) (d : D) (e : E) (f : F) (g : G) (h : H) : R :=
  block.closure a b c d e f g h

/-- Arity-9 trampoline. -/
def invoke9 {A B C D E F G H I R : Type}
    (block : ConcreteBlock (A → B → C → D → E → F → G → H → I → R))
    (a : A) (b : B) (c : C) (d : D) (e : E) (f : F) (g : G) (h : H) (i : I) : R :=
  block.closure a b c d e f g h i

/-- Arity-10 trampoline. -/
def invoke10 {A B C D E F G H I J R : Type}
    (block : ConcreteBlock (A → B → C → D → E → F → G → H → I → J → R))
    (a : A) (b : B) (c : C) (d : D) (e : E) (f : F) (g : G) (h : H) (i : I) (j : J) : R :=
  block.closure a b c d e f g h i j

/-- Arity-11 trampoline. -/
def invoke11 {A B C D E F G H I J K R : Type}
    (block : ConcreteBlock (A → B → C → D → E → F → G → H → I → J → K → R))
    (a : A) (b : B) (c : C) (d : D) (e : E) (f : F) (g : G) (h : H) (i : I) (j : J)
    (k : K) : R :=
  block.closure a b c d e f g h i j k

/-- Arity-12 trampoline from `concrete_block_impl!(a: A, ..., l: L)`. -/
def invoke12 {A B C D E F G H I J K L R : Type}
    (block : ConcreteBlock (A → B → C → D → E → F → G → H → I → J → K → L → R))
    (a : A) (b : B) (c : C) (d : D) (e : E) (f : F) (g : G) (h : H) (i : I) (j : J)
    (k : K) (l : L) : R :=
  block.closure a b c d e f g h i j k l

/-- Destructor events observable during a block's lifetime: the stored
closure's destructor running. -/
inductive BlockEvent where
  | dropClosure
  deriving DecidableEq

/-- The dispose trampoline `block_context_dispose::<B>`: `ptr::drop_in_place` on the whole block — the
stored closure's destructor runs exactly when the closure type needs dropping. -/
def block_context_dispose (needsDrop : Bool) : List BlockEvent :=
  if needsDrop then [.dropClosure] else []

/-- The copy trampoline `block_context_copy::<B>`: an empty body — every state is returned
unchanged and no destructor event is emitted, for any destination/source
pointer pair. -/
def block_context_copy {S : Type} (_dst _src : Nat) (st : S) : S × List BlockEvent :=
  (st, [])

/-- The local half of `ConcreteBlock::copy`: the block is wrapped in
`ManuallyDrop::new` before its raw address is handed to the runtime copy entry
point, so the local (stack) destructor emits no event. -/
def ConcreteBlock.copy_local_events {F : Type} (_b : ConcreteBlock F) : List BlockEvent :=
  []

/-- Modelled from the spec: the runtime side of heap promotion
(`RcBlock::copy` / `ffi::_Block_copy` and the later release are not among the
sources) — the runtime byte-copies the block to the heap and, when the heap
copy's reference count reaches zero, invokes the descriptor's dispose helper
exactly once (when present); it is the dispose trampoline installed by
`with_invoke`. -/
def runtime_release_events (b : ConcreteBlock F) (needsDrop : Bool) : List BlockEvent :=
  match b.header.descriptor.dispose with
  | some .ctxDispose => block_context_dispose needsDrop
  | some _ => []
  | none => []

/-- The full destructor-event trace of `ConcreteBlock::copy` followed by the
runtime eventually releasing the heap copy. -/
def copy_then_release_events (b : ConcreteBlock F) (needsDrop : Bool) : List BlockEvent :=
  b.copy_local_events ++ runtime_release_events b needsDrop

/-! ## Helper lemmas about the string primitives -/

theorem stripPre_self_append (p t : List Char) : stripPre p (p ++ t) = some t := by
  induction p with
  | nil => rfl
  | cons c cs ih => simpa [stripPre] using ih

theorem stripCharPre_cons_self (p : Char) (t : List Char) :
    stripCharPre p (p :: t) = some t := by
  simp [stripCharPre]

theorem stripPre_length {p s t : List Char} (h : stripPre p s = some t) :
    t.length + p.length = s.length := by
  induction p generalizing s with
  | nil =>
    simp only [stripPre, Option.some.injEq] at h
    subst h
    simp
  | cons c cs ih =>
    cases s with
    | nil => simp [stripPre] at h
    | cons d ds =>
      simp only [stripPre] at h
      split at h
      · have := ih h
        simp only [List.length_cons]
        omega
      · exact absurd h (by simp)

theorem stripCharPre_eq_some {p : Char} {s t : List Char} (h : stripCharPre p s = some t) :
    s = p :: t := by
  cases s with
  | nil => simp [stripCharPre] at h
  | cons c cs =>
    simp only [stripCharPre] at h
    split at h
    · rename_i hc
      simp only [Option.some.injEq] at h
      rw [hc, h]
    · exact absurd h (by simp)

theorem splitAtNonDigit_eq_split (s : List Char) :
    splitAtNonDigit s = (s.takeWhile Char.isDigit, s.dropWhile Char.isDigit) := by
  induction s with
  | nil => rfl
  | cons c cs ih =>
    by_cases hc : c.isDigit = true
    · simp [splitAtNonDigit, List.takeWhile_cons, List.dropWhile_cons, hc, ih]
    · simp [splitAtNonDigit, List.takeWhile_cons, List.dropWhile_cons, hc]

theorem splitAtNonDigit_digits_append {ds t : List Char} (hds : ds.all Char.isDigit = true)
    (ht : startsWithDigit t = false) : splitAtNonDigit (ds ++ t) = (ds, t) := by
  induction ds with
  | nil =>
    cases t with
    | nil => rfl
    | cons c cs =>
      simp only [startsWithDigit] at ht
      simp [splitAtNonDigit, ht]
  | cons d ds ih =>
    simp only [List.all_cons, Bool.and_eq_true] at hds
    simp [splitAtNonDigit, hds.1, ih hds.2]

theorem parseNat?_digits {l : List Char} (h1 : l ≠ []) (h2 : l.all Char.isDigit = true)
    (hv : charsVal l ≤ USIZE_MAX) : parseNat? l = some (charsVal l) := by
  simp [parseNat?, h1, h2, hv]

theorem chomp_int_digits_append {ds t : List Char} (h2 : ds.all Char.isDigit = true)
    (ht : startsWithDigit t = false) :
    chomp_int (ds ++ t) = (parseNat? ds).map fun n => (n, t) := by
  simp [chomp_int, splitAtNonDigit_digits_append h2 ht]

/-! ## Lemmas about decimal digit strings -/

theorem digitVal_digitChar {d : Nat} (h : d < 10) : digitVal (Nat.digitChar d) = d := by
  interval_cases d <;> decide

theorem isDigit_digitChar {d : Nat} (h : d < 10) : (Nat.digitChar d).isDigit = true := by
  interval_cases d <;> decide

theorem natDigits_all_digits (n : Nat) : (natDigits n).all Char.isDigit = true := by
  unfold natDigits
  split
  · decide
  · rw [List.all_eq_true]
    intro c hc
    rw [List.mem_reverse, List.mem_map] at hc
    obtain ⟨d, hd, rfl⟩ := hc
    exact isDigit_digitChar (Nat.digits_lt_base (by norm_num) hd)

theorem natDigits_ne_nil (n : Nat) : natDigits n ≠ [] := by
  unfold natDigits
  split
  · simp
  · rename_i hn
    simp [Nat.digits_ne_nil_iff_ne_zero, hn]

theorem foldl_digitChars (L : List Nat) (hL : ∀ d ∈ L, d < 10) (a : Nat) :
    ((L.map Nat.digitChar).reverse).foldl (fun a c => a * 10 + digitVal c) a =
      a * 10 ^ L.length + Nat.ofDigits 10 L := by
  induction L generalizing a with
  | nil => simp
  | cons d L ih =>
    have hd : d < 10 := hL d (List.mem_cons_self d L)
    have hL' : ∀ x ∈ L, x < 10 := fun x hx => hL x (List.mem_cons_of_mem d hx)
    simp only [List.map_cons, List.reverse_cons, List.foldl_append, List.foldl_cons,
      List.foldl_nil]
    rw [ih hL', digitVal_digitChar hd, Nat.ofDigits_cons]
    simp only [List.length_cons, pow_succ]
    ring

theorem charsVal_natDigits (n : Nat) : charsVal (natDigits n) = n := by
  unfold charsVal natDigits
  split
  · rename_i hn
    subst hn
    decide
  · rw [foldl_digitChars _ (fun d hd => Nat.digits_lt_base (by norm_num) hd) 0]
    simp [Nat.ofDigits_digits]

theorem rm_int_natDigits (n : Nat) {t u : List Char} (ht : startsWithDigit t = false)
    (h : rm_int_prefix (natDigits n ++ t) n = some u) : u = t := by
  rw [ rm_int_prefix, chomp_int_digits_append (natDigits_all_digits n) ht] at h
  cases hp : parseNat? (natDigits n) with
  | none => rw [hp] at h; simp at h
  | some m =>
    rw [hp] at h
    simp only [Option.map_some', Option.some_bind] at h
    split at h
    · simp only [Option.some.injEq] at h
      exact h.symm
    · exact absurd h (by simp)

/-! ## The canonical string round-trips through the matcher -/

theorem canonical_head (E : Encoding) :
    ∃ c t, canonical_string E = c :: t ∧ c.isDigit = false ∧ c ∉ QUALIFIERS := by
  cases E <;> exact ⟨_, _, rfl, by decide, by decide⟩

theorem startsWithDigit_canonical_append (E : Encoding) (x : List Char) :
    startsWithDigit (canonical_string E ++ x) = false := by
  obtain ⟨c, t, hE, hc, -⟩ := canonical_head E
  rw [hE, List.cons_append]
  simpa [startsWithDigit] using hc

theorem startsWithDigit_canonicalList_append (fs : EncList) (x : List Char)
    (hx : startsWithDigit x = false) : startsWithDigit (canonicalList fs ++ x) = false := by
  cases fs with
  | nil => simpa [canonicalList] using hx
  | cons e es =>
    simp only [canonicalList, List.append_assoc]
    exact startsWithDigit_canonical_append e _

mutual

theorem rm_canonical (E : Encoding) (x : List Char) (hx : startsWithDigit x = false)
    {t : List Char} (h : rm_enc_prefix (canonical_string E ++ x) E = some t) : t = x := by
  cases E
  case BitField b =>
    simp only [canonical_string, List.cons_append, rm_enc_prefix, stripCharPre_cons_self,
      Option.some_bind] at h
    exact rm_int_natDigits b hx h
  case Pointer t' =>
    simp only [canonical_string, List.cons_append, rm_enc_prefix, stripCharPre_cons_self,
      Option.some_bind] at h
    exact rm_canonical t' x hx h
  case Array len item =>
    simp only [canonical_string, List.cons_append, List.append_assoc, List.singleton_append,
      List.nil_append, rm_enc_prefix, stripCharPre_cons_self, Option.some_bind] at h
    rw [Option.bind_eq_some] at h
    obtain ⟨s1, h1, h⟩ := h
    have e1 : s1 = canonical_string item ++ (']' :: x) :=
      rm_int_natDigits len (startsWithDigit_canonical_append item (']' :: x)) h1
    subst e1
    rw [Option.bind_eq_some] at h
    obtain ⟨s2, h2, h3⟩ := h
    have e2 : s2 = ']' :: x := rm_canonical item (']' :: x) rfl h2
    subst e2
    rw [stripCharPre_cons_self] at h3
    simp only [Option.some.injEq] at h3
    exact h3.symm
  case Struct name fields =>
    simp only [canonical_string, List.cons_append, List.append_assoc, List.cons_append,
      List.singleton_append, List.nil_append, rm_enc_prefix, stripCharPre_cons_self,
      Option.some_bind, stripPre_self_append] at h
    rw [Option.bind_eq_some] at h
    obtain ⟨s4, h4, h5⟩ := h
    have e4 : s4 = '}' :: x := rm_canonicalList fields ('}' :: x) rfl h4
    subst e4
    rw [stripCharPre_cons_self] at h5
    simp only [Option.some.injEq] at h5
    exact h5.symm
  case Union name members =>
    simp only [canonical_string, List.cons_append, List.append_assoc, List.cons_append,
      List.singleton_append, List.nil_append, rm_enc_prefix, stripCharPre_cons_self,
      Option.some_bind, stripPre_self_append] at h
    rw [Option.bind_eq_some] at h
    obtain ⟨s4, h4, h5⟩ := h
    have e4 : s4 = ')' :: x := rm_canonicalList members (')' :: x) rfl h4
    subst e4
    rw [stripCharPre_cons_self] at h5
    simp only [Option.some.injEq] at h5
    exact h5.symm
  all_goals
    simp only [canonical_string, rm_enc_prefix, stripPre_self_append,
      Option.some.injEq] at h
    exact h.symm

theorem rm_canonicalList (fs : EncList) (x : List Char) (hx : startsWithDigit x = false)
    {t : List Char} (h : rm_enc_list (canonicalList fs ++ x) fs = some t) : t = x := by
  cases fs with
  | nil =>
    simp only [canonicalList, List.nil_append, rm_enc_list, Option.some.injEq] at h
    exact h.symm
  | cons e es =>
    simp only [canonicalList, List.append_assoc, rm_enc_list] at h
    rw [Option.bind_eq_some] at h
    obtain ⟨s1, h1, h2⟩ := h
    have e1 : s1 = canonicalList es ++ x :=
      rm_canonical e (canonicalList es ++ x) (startsWithDigit_canonicalList_append es x hx) h1
    subst e1
    exact rm_canonicalList es x hx h2

end

/-! ## The matcher strictly consumes input -/

theorem chomp_int_length {s : List Char} {n : Nat} {t : List Char}
    (h : chomp_int s = some (n, t)) : t.length ≤ s.length := by
  simp only [chomp_int, splitAtNonDigit_eq_split] at h
  cases hp : parseNat? (s.takeWhile Char.isDigit) with
  | none => rw [hp] at h; simp at h
  | some m =>
    rw [hp] at h
    simp only [Option.map_some', Option.some.injEq, Prod.mk.injEq] at h
    rw [← h.2]
    exact (List.dropWhile_suffix Char.isDigit).length_le

theorem rm_int_length {s : List Char} {k : Nat} {t : List Char}
    (h : rm_int_prefix s k = some t) : t.length ≤ s.length := by
  unfold rm_int_prefix at h
  cases hc : chomp_int s with
  | none => rw [hc] at h; simp at h
  | some p =>
    obtain ⟨m, u⟩ := p
    rw [hc] at h
    simp only [Option.some_bind] at h
    split at h
    · simp only [Option.some.injEq] at h
      subst h
      exact chomp_int_length hc
    · exact absurd h (by simp)

mutual

theorem rm_enc_length (s : List Char) (E : Encoding) {t : List Char}
    (h : rm_enc_prefix s E = some t) : t.length < s.length := by
  cases E
  case BitField b =>
    simp only [ rm_enc_prefix, Option.bind_eq_some] at h
    obtain ⟨s1, h1, h2⟩ := h
    have e1 := stripCharPre_eq_some h1
    have l2 := rm_int_length h2
    rw [e1]
    simp only [List.length_cons]
    omega
  case Pointer t' =>
    simp only [ rm_enc_prefix, Option.bind_eq_some] at h
    obtain ⟨s1, h1, h2⟩ := h
    have e1 := stripCharPre_eq_some h1
    have l2 := rm_enc_length s1 t' h2
    rw [e1]
    simp only [List.length_cons]
    omega
  case Array len item =>
    simp only [ rm_enc_prefix, Option.bind_eq_some] at h
    obtain ⟨s1, h1, s2, h2, s3, h3, h4⟩ := h
    have e1 := stripCharPre_eq_some h1
    have l2 := rm_int_length h2
    have l3 := rm_enc_length s2 item h3
    have e4 := stripCharPre_eq_some h4
    rw [e1]
    rw [e4] at l3
    simp only [List.length_cons] at l3 ⊢
    omega
  case Struct name fields =>
    simp only [ rm_enc_prefix, Option.bind_eq_some] at h
    obtain ⟨s1, h1, s2, h2, s3, h3, s4, h4, h5⟩ := h
    have e1 := stripCharPre_eq_some h1
    have l2 := stripPre_length h2
    have e3 := stripCharPre_eq_some h3
    have l4 := rm_list_length s3 fields h4
    have e5 := stripCharPre_eq_some h5
    rw [e1]
    rw [e3] at l2
    rw [e5] at l4
    simp only [List.length_cons] at l2 l4 ⊢
    omega
  case Union name members =>
    simp only [ rm_enc_prefix, Option.bind_eq_some] at h
    obtain ⟨s1, h1, s2, h2, s3, h3, s4, h4, h5⟩ := h
    have e1 := stripCharPre_eq_some h1
    have l2 := stripPre_length h2
    have e3 := stripCharPre_eq_some h3
    have l4 := rm_list_length s3 members h4
    have e5 := stripCharPre_eq_some h5
    rw [e1]
    rw [e3] at l2
    rw [e5] at l4
    simp only [List.length_cons] at l2 l4 ⊢
    omega
  all_goals
    simp only [ rm_enc_prefix] at h
    have := stripPre_length h
    simp only [List.length_cons, List.length_nil] at this
    omega

theorem rm_list_length (s : List Char) (fs : EncList) {t : List Char}
    (h : rm_enc_list s fs = some t) : t.length ≤ s.length := by
  cases fs with
  | nil =>
    simp only [rm_enc_list, Option.some.injEq] at h
    subst h
    exact le_refl _
  | cons e es =>
    simp only [rm_enc_list, Option.bind_eq_some] at h
    obtain ⟨s1, h1, h2⟩ := h
    have l1 := rm_enc_length s e h1
    have l2 := rm_list_length s1 es h2
    omega

end

/-! ## Remaining auxiliary lemmas -/

theorem takeWhile_all_digits (s : List Char) :
    (s.takeWhile Char.isDigit).all Char.isDigit = true := by
  rw [List.all_eq_true]
  intro c hc
  exact List.mem_takeWhile_imp hc

theorem stripPre_ne {p c : Char} (ps cs : List Char) (h : p ≠ c) :
    stripPre (p :: ps) (c :: cs) = none := by
  simp [stripPre, h]

theorem stripCharPre_ne {p c : Char} (cs : List Char) (h : c ≠ p) :
    stripCharPre p (c :: cs) = none := by
  simp [stripCharPre, h]

theorem qual_not_structural : ∀ c ∈ QUALIFIERS, c ∉ structFirstChars := by decide

theorem structural_ne_qual {q : Char} (hq : q ∈ QUALIFIERS) {c : Char}
    (hc : c ∈ structFirstChars) : c ≠ q := by
  intro h
  exact qual_not_structural q hq (h ▸ hc)

theorem dropWhile_qual_append {Q : List Char} (hQ : ∀ c ∈ Q, c ∈ QUALIFIERS) (s : List Char) :
    (Q ++ s).dropWhile (fun c => c ∈ QUALIFIERS) = s.dropWhile (fun c => c ∈ QUALIFIERS) := by
  induction Q with
  | nil => simp
  | cons c cs ih =>
    have hc : c ∈ QUALIFIERS := hQ c (List.mem_cons_self c cs)
    simp only [List.cons_append, List.dropWhile_cons, hc, decide_True, if_true]
    exact ih (fun d hd => hQ d (List.mem_cons_of_mem c hd))

theorem dropWhile_qual_head {c : Char} (t : List Char) (hc : c ∉ QUALIFIERS) :
    (c :: t).dropWhile (fun c => c ∈ QUALIFIERS) = c :: t := by
  simp [List.dropWhile_cons, hc]

theorem eq_enc_iff (s : List Char) (E : Encoding) :
    eq_enc s E = true ↔
      rm_enc_prefix (s.dropWhile fun c => c ∈ QUALIFIERS) E = some [] := by
  unfold eq_enc
  cases hr : rm_enc_prefix (s.dropWhile fun c => c ∈ QUALIFIERS) E with
  | none => simp [hr]
  | some rest => simp [hr, List.isEmpty_iff]

/-! ## Claim theorems -/

/-- C1 (amended): `eq_enc s E` is true iff, after stripping leading qualifier
characters, the structural prefix for `E` can be removed from the front of `s`
with an exactly empty remainder; and for every encoding `E` and non-empty
suffix `x` that does not start with an ASCII digit, matching the canonical
string of `E` followed by `x` returns false. (The original claim, quantified
over all non-empty suffixes, fails: a digit suffix can merge with a trailing
bitfield width, see the counterexample.) -/
theorem eq_enc_exhaustion_amended :
    (∀ (s : List Char) (E : Encoding),
      eq_enc s E = true ↔
        rm_enc_prefix (s.dropWhile fun c => c ∈ QUALIFIERS) E = some []) ∧
    (∀ (E : Encoding) (x : List Char), x ≠ [] → startsWithDigit x = false →
      eq_enc (canonical_string E ++ x) E = false) := by
  constructor
  · exact eq_enc_iff
  · intro E x hne hd
    obtain ⟨c, t0, hE, hcd, hcq⟩ := canonical_head E
    have hdrop : (canonical_string E ++ x).dropWhile (fun c => c ∈ QUALIFIERS) =
        canonical_string E ++ x := by
      rw [hE, List.cons_append]
      exact dropWhile_qual_head _ hcq
    cases h : eq_enc (canonical_string E ++ x) E with
    | false => rfl
    | true =>
      have h2 := (eq_enc_iff _ _).mp h
      rw [hdrop] at h2
      exact absurd (rm_canonical E x hd h2).symm hne

/-- Witness for C1: the amended theorem applied at `E = Char`, `x = "x"`. -/
theorem eq_enc_exhaustion_amended_app :
    ("x".data ≠ ([] : List Char) ∧ startsWithDigit "x".data = false) ∧
    eq_enc (canonical_string .Char ++ "x".data) .Char = false :=
  ⟨⟨by decide, by decide⟩,
    eq_enc_exhaustion_amended.2 .Char "x".data (by decide) (by decide)⟩

/-- C1 counterexample: for `BitField 0` the canonical string is `"b0"` and the
suffix `"0"` is non-empty, yet the matcher accepts `"b0" ++ "0" = "b00"`
(the digit run `"00"` still parses to the expected width `0`) — refuting the
original universal trailing-content rejection. -/
theorem eq_enc_trailing_cex :
    canonical_string (.BitField 0) = "b0".data ∧
    "0".data ≠ ([] : List Char) ∧
    eq_enc (canonical_string (.BitField 0) ++ "0".data) (.BitField 0) = true := by
  exact ⟨by decide, by decide, by decide⟩

/-- C2 (confirmed): prepending any string of qualifier characters from
`{r,n,N,o,O,R,V}` never changes the verdict of `eq_enc`; in particular it
preserves a match. -/
theorem eq_enc_qualifier_invariant :
    (∀ (Q s : List Char) (E : Encoding), (∀ c ∈ Q, c ∈ QUALIFIERS) →
      eq_enc (Q ++ s) E = eq_enc s E) ∧
    (∀ (Q s : List Char) (E : Encoding), (∀ c ∈ Q, c ∈ QUALIFIERS) →
      eq_enc s E = true → eq_enc (Q ++ s) E = true) := by
  have main : ∀ (Q s : List Char) (E : Encoding), (∀ c ∈ Q, c ∈ QUALIFIERS) →
      eq_enc (Q ++ s) E = eq_enc s E := by
    intro Q s E hQ
    unfold eq_enc
    rw [dropWhile_qual_append hQ]
  exact ⟨main, fun Q s E hQ h => (main Q s E hQ).trans h⟩

/-- Witness for C2: all seven qualifiers prepended to `"v"` against `Void`. -/
theorem eq_enc_qualifier_invariant_app :
    (∀ c ∈ "rnNoORV".data, c ∈ QUALIFIERS) ∧
    eq_enc ("rnNoORV".data ++ "v".data) .Void = eq_enc "v".data .Void :=
  ⟨by decide, eq_enc_qualifier_invariant.1 "rnNoORV".data "v".data .Void (by decide)⟩

/-- C3 (confirmed): struct matching consumes `\x7b`, the literal name, `=`, each
field in order, `\x7d`; a wrong leading character or a failing name match makes
the whole result `none`; the nested example matches and its unterminated
variant does not. -/
theorem struct_composite_matching :
    eq_enc "{A={B=ci}ci}".data
      (.Struct "A".data (.cons (.Struct "B".data (.cons .Char (.cons .Int .nil)))
        (.cons .Char (.cons .Int .nil)))) = true ∧
    eq_enc "\x7bA=\x7bB=ci\x7dci".data
      (.Struct "A".data (.cons (.Struct "B".data (.cons .Char (.cons .Int .nil)))
        (.cons .Char (.cons .Int .nil)))) = false ∧
    (∀ (c : Char) (s name : List Char) (fields : EncList), c ≠ '{' →
      rm_enc_prefix (c :: s) (.Struct name fields) = none) ∧
    (∀ (s name : List Char) (fields : EncList), stripPre name s = none →
      rm_enc_prefix ('{' :: s) (.Struct name fields) = none) ∧
    (∀ (s name : List Char) (fields : EncList),
      rm_enc_prefix s (.Struct name fields) =
        (stripCharPre '{' s).bind fun s =>
          (stripPre name s).bind fun s =>
            (stripCharPre '=' s).bind fun s =>
              (rm_enc_list s fields).bind fun s =>
                stripCharPre '}' s) := by
  refine ⟨by decide, by decide, ?_, ?_, fun s name fields => rfl⟩
  · intro c s name fields hc
    simp [ rm_enc_prefix, stripCharPre, hc]
  · intro s name fields h
    simp [ rm_enc_prefix, stripCharPre_cons_self, h]

/-- Witness for C3: a wrong leading character and a mismatched name. -/
theorem struct_composite_matching_app :
    ('i' ≠ '{' ∧ stripPre "A".data "B=c\x7d".data = none) ∧
    rm_enc_prefix ('i' :: "A=c\x7d".data) (.Struct "A".data (.cons .Char .nil)) = none ∧
    rm_enc_prefix ('{' :: "B=c\x7d".data) (.Struct "A".data (.cons .Char .nil)) = none :=
  ⟨⟨by decide, by decide⟩,
    struct_composite_matching.2.2.1 'i' "A=c\x7d".data "A".data (.cons .Char .nil) (by decide),
    struct_composite_matching.2.2.2.1 "B=c\x7d".data "A".data (.cons .Char .nil) (by decide)⟩

/-- C4 (confirmed): `chomp_int` consumes the maximal leading run of ASCII
decimal digits and parses it as an unsigned integer, failing exactly when the
run is empty or the parse fails (`usize` overflow); `rm_int_prefix`
additionally fails when the value differs from the expected one; `"b32"`
matches `BitField 32` while `"b"` and `"b-32"` do not, and a 25-digit run
overflows and never parses. -/
theorem chomp_int_maximal_run :
    (∀ s : List Char, chomp_int s =
      if s.takeWhile Char.isDigit = [] ∨ USIZE_MAX < charsVal (s.takeWhile Char.isDigit)
      then none
      else some (charsVal (s.takeWhile Char.isDigit), s.dropWhile Char.isDigit)) ∧
    (∀ (s : List Char) (k n : Nat) (t : List Char), chomp_int s = some (n, t) → k ≠ n →
      rm_int_prefix s k = none) ∧
    eq_enc "b32".data (.BitField 32) = true ∧
    eq_enc "b".data (.BitField 32) = false ∧
    eq_enc "b-32".data (.BitField 32) = false ∧
    chomp_int "9999999999999999999999999".data = none := by
  refine ⟨?_, ?_, by decide, by decide, by decide, by decide⟩
  · intro s
    simp only [chomp_int, splitAtNonDigit_eq_split]
    by_cases h : s.takeWhile Char.isDigit = []
    · rw [if_pos (Or.inl h)]
      simp [h, parseNat?]
    · by_cases hv : USIZE_MAX < charsVal (s.takeWhile Char.isDigit)
      · rw [if_pos (Or.inr hv), parseNat?, if_neg (by omega), Option.map_none']
      · rw [if_neg (by push_neg; exact ⟨h, by omega⟩),
          parseNat?_digits h (takeWhile_all_digits s) (by omega)]
        rfl
  · intro s k n t hc hk
    simp [ rm_int_prefix, hc, hk]

/-- Witness for C4: the digit run `"32"` with mismatching expected value 31. -/
theorem chomp_int_maximal_run_app :
    (chomp_int "32c".data = some (32, "c".data) ∧ 31 ≠ 32) ∧
    rm_int_prefix "32c".data 31 = none :=
  ⟨⟨by decide, by decide⟩,
    chomp_int_maximal_run.2.1 "32c".data 31 32 "c".data (by decide) (by decide)⟩

/-- C5 (confirmed): `with_invoke` builds a header with the stack-block class,
reserved zero, the supplied invoke pointer, the has-copy-dispose flag exactly
when the closure type needs dropping (empty flags otherwise), and a descriptor
with reserved 0, the whole-object size, and copy/dispose helpers present iff
the closure type needs dropping; the closure is stored unchanged. -/
theorem with_invoke_header_spec :
    ∀ (F : Type) (needsDrop : Bool) (size : Nat) (inv : FnPtr) (clo : F),
      (ConcreteBlock.with_invoke needsDrop size inv clo).header.isa =
        Isa.NSConcreteStackBlock ∧
      (ConcreteBlock.with_invoke needsDrop size inv clo).header.reserved = 0 ∧
      (ConcreteBlock.with_invoke needsDrop size inv clo).header.invoke = some inv ∧
      (ConcreteBlock.with_invoke needsDrop size inv clo).header.flags =
        (if needsDrop then BlockFlags.BLOCK_HAS_COPY_DISPOSE else BlockFlags.EMPTY) ∧
      (ConcreteBlock.with_invoke needsDrop size inv clo).header.flags.has_copy_dispose =
        needsDrop ∧
      (ConcreteBlock.with_invoke needsDrop size inv clo).header.descriptor.reserved = 0 ∧
      (ConcreteBlock.with_invoke needsDrop size inv clo).header.descriptor.size = size ∧
      (ConcreteBlock.with_invoke needsDrop size inv clo).header.descriptor.copy.isSome =
        needsDrop ∧
      (ConcreteBlock.with_invoke needsDrop size inv clo).header.descriptor.dispose.isSome =
        needsDrop ∧
      (ConcreteBlock.with_invoke needsDrop size inv clo).closure = clo := by
  intro F needsDrop size inv clo
  cases needsDrop <;>
    simp [ConcreteBlock.with_invoke, ConcreteBlock.FLAGS, ConcreteBlock.DESCRIPTOR,
      BlockFlags.BLOCK_HAS_COPY_DISPOSE, BlockFlags.EMPTY]

/-- C6 (confirmed): for every arity 0 through 12, the generated trampoline
applied to a block built from a closure forwards the arguments to that closure
and returns its result unmodified. -/
theorem invoke_forwards :
    (∀ (R : Type) (nd : Bool) (sz : Nat) (p : FnPtr) (f : R),
      invoke0 (ConcreteBlock.with_invoke nd sz p f) = f) ∧
    (∀ (A R : Type) (nd : Bool) (sz : Nat) (p : FnPtr) (f : A → R) (a : A),
      invoke1 (ConcreteBlock.with_invoke nd sz p f) a = f a) ∧
    (∀ (A B R : Type) (nd : Bool) (sz : Nat) (p : FnPtr) (f : A → B → R) (a : A) (b : B),
      invoke2 (ConcreteBlock.with_invoke nd sz p f) a b = f a b) ∧
    (∀ (A B C R : Type) (nd : Bool) (sz : Nat) (p : FnPtr) (f : A → B → C → R)
      (a : A) (b : B) (c : C),
      invoke3 (ConcreteBlock.with_invoke nd sz p f) a b c = f a b c) ∧
    (∀ (A B C D R : Type) (nd : Bool) (sz : Nat) (p : FnPtr) (f : A → B → C → D → R)
      (a : A) (b : B) (c : C) (d : D),
      invoke4 (ConcreteBlock.with_invoke nd sz p f) a b c d = f a b c d) ∧
    (∀ (A B C D E R : Type) (nd : Bool) (sz : Nat) (p : FnPtr) (f : A → B → C → D → E → R)
      (a : A) (b : B) (c : C) (d : D) (e : E),
      invoke5 (ConcreteBlock.with_invoke nd sz p f) a b c d e = f a b c d e) ∧
    (∀ (A B C D E F R : Type) (nd : Bool) (sz : Nat) (p : FnPtr)
      (f : A → B → C → D → E → F → R) (a : A) (b : B) (c : C) (d : D) (e : E) (x : F),
      invoke6 (ConcreteBlock.with_invoke nd sz p f) a b c d e x = f a b c d e x) ∧
    (∀ (A B C D E F G R : Type) (nd : Bool) (sz : Nat) (p : FnPtr)
      (f : A → B → C → D → E → F → G → R)
      (a : A) (b : B) (c : C) (d : D) (e : E) (x : F) (g : G),
      invoke7 (ConcreteBlock.with_invoke nd sz p f) a b c d e x g = f a b c d e x g) ∧
    (∀ (A B C D E F G H R : Type) (nd : Bool) (sz : Nat) (p : FnPtr)
      (f : A → B → C → D → E → F → G → H → R)
      (a : A) (b : B) (c : C) (d : D) (e : E) (x : F) (g : G) (h : H),
      invoke8 (ConcreteBlock.with_invoke nd sz p f) a b c d e x g h = f a b c d e x g h) ∧
    (∀ (A B C D E F G H I R : Type) (nd : Bool) (sz : Nat) (p : FnPtr)
      (f : A → B → C → D → E → F → G → H → I → R)
      (a : A) (b : B) (c : C) (d : D) (e : E) (x : F) (g : G) (h : H) (i : I),
      invoke9 (ConcreteBlock.with_invoke nd sz p f) a b c d e x g h i =
        f a b c d e x g h i) ∧
    (∀ (A B C D E F G H I J R : Type) (nd : Bool) (sz : Nat) (p : FnPtr)
      (f : A → B → C → D → E → F → G → H → I → J → R)
      (a : A) (b : B) (c : C) (d : D) (e : E) (x : F) (g : G) (h : H) (i : I) (j : J),
      invoke10 (ConcreteBlock.with_invoke nd sz p f) a b c d e x g h i j =
        f a b c d e x g h i j) ∧
    (∀ (A B C D E F G H I J K R : Type) (nd : Bool) (sz : Nat) (p : FnPtr)
      (f : A → B → C → D → E → F → G → H → I → J → K → R)
      (a : A) (b : B) (c : C) (d : D) (e : E) (x : F) (g : G) (h : H) (i : I) (j : J)
      (k : K),
      invoke11 (ConcreteBlock.with_invoke nd sz p f) a b c d e x g h i j k =
        f a b c d e x g h i j k) ∧
    (∀ (A B C D E F G H I J K L R : Type) (nd : Bool) (sz : Nat) (p : FnPtr)
      (f : A → B → C → D → E → F → G → H → I → J → K → L → R)
      (a : A) (b : B) (c : C) (d : D) (e : E) (x : F) (g : G) (h : H) (i : I) (j : J)
      (k : K) (l : L),
      invoke12 (ConcreteBlock.with_invoke nd sz p f) a b c d e x g h i j k l =
        f a b c d e x g h i j k l) := by
  refine ⟨?_, ?_, ?_, ?_, ?_, ?_, ?_, ?_, ?_, ?_, ?_, ?_, ?_⟩ <;> intros <;> rfl

/-- C7 (confirmed): the matcher is a total boolean function, and every
successful recursive prefix removal leaves a strictly shorter string — the
decreasing measure behind its termination. -/
theorem matcher_total_strict_decrease :
    (∀ (s : List Char) (E : Encoding), eq_enc s E = true ∨ eq_enc s E = false) ∧
    (∀ (s : List Char) (E : Encoding) (t : List Char),
      rm_enc_prefix s E = some t → t.length < s.length) := by
  constructor
  · intro s E
    cases eq_enc s E with
    | true => exact Or.inl rfl
    | false => exact Or.inr rfl
  · intro s E t h
    exact rm_enc_length s E h

/-- Witness for C7: removing `Char`'s code from `"cX"` leaves the shorter `"X"`. -/
theorem matcher_total_strict_decrease_app :
    rm_enc_prefix "cX".data .Char = some "X".data ∧
    "X".data.length < "cX".data.length :=
  ⟨by decide, matcher_total_strict_decrease.2 "cX".data .Char "X".data (by decide)⟩

/-- C8 (confirmed): `copy` suppresses the local stack destructor (its local
event trace is empty) and the stored closure's destructor runs exactly once —
via the dispose trampoline when the runtime releases the heap copy — when the
closure needs dropping, and never otherwise. -/
theorem copy_dispose_exactly_once :
    ∀ (F : Type) (b : ConcreteBlock F) (nd : Bool) (sz : Nat) (inv : FnPtr) (f : F),
      ConcreteBlock.copy_local_events b = ([] : List BlockEvent) ∧
      (copy_then_release_events (ConcreteBlock.with_invoke nd sz inv f) nd).count
        BlockEvent.dropClosure = (if nd then 1 else 0) := by
  intro F b nd sz inv f
  refine ⟨rfl, ?_⟩
  cases nd <;>
    simp [copy_then_release_events, runtime_release_events, ConcreteBlock.with_invoke,
      ConcreteBlock.DESCRIPTOR, block_context_dispose, ConcreteBlock.copy_local_events]

/-- C9 (confirmed): the copy trampoline is a guaranteed no-op — for every state
type, state value and destination/source pointers it returns the state
unchanged with an empty event trace. -/
theorem copy_trampoline_noop :
    ∀ (S : Type) (dst src : Nat) (st : S),
      block_context_copy dst src st = (st, ([] : List BlockEvent)) := by
  intro S dst src st
  rfl

/-- C10 (confirmed): qualifiers are stripped only at the very start of the
input — inside the structural recursion a leading qualifier character never
matches any encoding, so `"^rc"` does not match `Pointer(Char)` and a
qualifier between struct fields fails the match. -/
theorem qualifiers_only_at_start :
    (∀ (E : Encoding) (q : Char) (s : List Char), q ∈ QUALIFIERS →
      rm_enc_prefix (q :: s) E = none) ∧
    eq_enc "^rc".data (.Pointer .Char) = false ∧
    eq_enc "{A=cri}".data (.Struct "A".data (.cons .Char (.cons .Int .nil))) = false := by
  refine ⟨?_, by decide, by decide⟩
  intro E q s hq
  have hne : ∀ c ∈ structFirstChars, c ≠ q := fun c hc => structural_ne_qual hq hc
  cases E <;> simp only [ rm_enc_prefix]
  case Char => exact stripPre_ne _ _ (hne 'c' (by decide))
  case Short => exact stripPre_ne _ _ (hne 's' (by decide))
  case Int => exact stripPre_ne _ _ (hne 'i' (by decide))
  case Long => exact stripPre_ne _ _ (hne 'l' (by decide))
  case LongLong => exact stripPre_ne _ _ (hne 'q' (by decide))
  case UChar => exact stripPre_ne _ _ (hne 'C' (by decide))
  case UShort => exact stripPre_ne _ _ (hne 'S' (by decide))
  case UInt => exact stripPre_ne _ _ (hne 'I' (by decide))
  case ULong => exact stripPre_ne _ _ (hne 'L' (by decide))
  case ULongLong => exact stripPre_ne _ _ (hne 'Q' (by decide))
  case Float => exact stripPre_ne _ _ (hne 'f' (by decide))
  case Double => exact stripPre_ne _ _ (hne 'd' (by decide))
  case Bool => exact stripPre_ne _ _ (hne 'B' (by decide))
  case Void => exact stripPre_ne _ _ (hne 'v' (by decide))
  case String => exact stripPre_ne _ _ (hne '*' (by decide))
  case Object => exact stripPre_ne _ _ (hne '@' (by decide))
  case Block => exact stripPre_ne _ _ (hne '@' (by decide))
  case Class => exact stripPre_ne _ _ (hne '#' (by decide))
  case Sel => exact stripPre_ne _ _ (hne ':' (by decide))
  case Unknown => exact stripPre_ne _ _ (hne '?' (by decide))
  case BitField b =>
    rw [stripCharPre_ne _ (Ne.symm (hne 'b' (by decide)))]
    rfl
  case Pointer t =>
    rw [stripCharPre_ne _ (Ne.symm (hne '^' (by decide)))]
    rfl
  case Array len item =>
    rw [stripCharPre_ne _ (Ne.symm (hne '[' (by decide)))]
    rfl
  case Struct name fields =>
    rw [stripCharPre_ne _ (Ne.symm (hne '{' (by decide)))]
    rfl
  case Union name members =>
    rw [stripCharPre_ne _ (Ne.symm (hne '(' (by decide)))]
    rfl

/-- Witness for C10: the qualifier `r` in structural position never matches. -/
theorem qualifiers_only_at_start_app :
    ('r' ∈ QUALIFIERS) ∧ rm_enc_prefix ('r' :: "c".data) .Char = none :=
  ⟨by decide, qualifiers_only_at_start.1 .Char 'r' "c".data (by decide)⟩

end ObjC2
